import Mathlib

/-!
Shallow embedding of `src/stock_monitor.py` (class `IntegratedStockMonitor`).

Python strings are modelled as `List Char` (Python `len` counts code points,
as does `List.length`).  Python's `str.strip()` is `pyStrip`,
`re.sub(r"\s+", " ", s)` is `collapseWs`, and the substring test `a in b`
is `isSubstr`.  The BeautifulSoup document is modelled as `Doc`: a map from
CSS selector strings to the matched elements, each element carrying its
`get_text()` result and its own sub-selection map (one nesting level, which
is all the source uses).  `urlparse(url).hostname` is modelled by
`hostname?`.  Set-returning Python code (`list(set(...))`, whose order is
unspecified) is modelled with `Finset`.
-/

namespace StockMonitor

/-- Whitespace characters recognised by Python's `str.strip()` and `\s`
(restricted to the ASCII range, which is all this program's data uses). -/
def isPySpace (c : Char) : Bool :=
  c = ' ' || c = '\t' || c = '\n' || c = '\r' || c = '\x0b' || c = '\x0c'

/-- Python `str.strip()`: drop leading and trailing whitespace. -/
def pyStrip (s : List Char) : List Char :=
  ((s.dropWhile isPySpace).reverse.dropWhile isPySpace).reverse

/-- Worker for `collapseWs`; `prevSpace` records whether the previous input
character belonged to a whitespace run already replaced by `' '`. -/
def collapseAux : List Char → Bool → List Char
  | [], _ => []
  | c :: rest, prevSpace =>
    if isPySpace c then
      if prevSpace then collapseAux rest true
      else ' ' :: collapseAux rest true
    else c :: collapseAux rest false

/-- Python `re.sub(r"\s+", " ", s)`: each maximal whitespace run becomes a
single `' '`. -/
def collapseWs (s : List Char) : List Char := collapseAux s false

def isUpperAZ (c : Char) : Bool := 'A' ≤ c && c ≤ 'Z'

def isDigit09 (c : Char) : Bool := '0' ≤ c && c ≤ '9'

/-- Characters kept by `re.sub(r"[^A-Za-z0-9]", "", ...)`. -/
def isAlnumAscii (c : Char) : Bool :=
  isUpperAZ c || ('a' ≤ c && c ≤ 'z') || isDigit09 c

/-- Regex `^[A-Z]{1,5}$` (1-5 uppercase letters, US stocks). -/
def pat1 (s : List Char) : Bool :=
  s.all isUpperAZ && decide (1 ≤ s.length) && decide (s.length ≤ 5)

/-- Regex `^[A-Z]{1,4}\.[A-Z]{1,2}$` (NYSE/NASDAQ format).  Since `[A-Z]`
never matches `'.'`, the first dot of a matching string separates the two
letter groups, so splitting at the first `'.'` is exact. -/
def pat2 (s : List Char) : Bool :=
  let l := s.takeWhile (fun c => !(c = '.'))
  match s.dropWhile (fun c => !(c = '.')) with
  | '.' :: r =>
    l.all isUpperAZ && decide (1 ≤ l.length) && decide (l.length ≤ 4) &&
    r.all isUpperAZ && decide (1 ≤ r.length) && decide (r.length ≤ 2)
  | _ => false

/-- Regex `^[A-Z]{la,lb}[0-9]{da,db}$`.  Uppercase letters and digits are
disjoint, so a matching string splits uniquely as letters-then-digits. -/
def upperThenDigits (s : List Char) (la lb da db : Nat) : Bool :=
  let us := s.takeWhile isUpperAZ
  let ds := s.dropWhile isUpperAZ
  decide (la ≤ us.length) && decide (us.length ≤ lb) &&
  ds.all isDigit09 && decide (da ≤ ds.length) && decide (ds.length ≤ db)

/-- Regex `^[A-Z]{1,3}[0-9]{1,2}$` (some exchanges use numbers). -/
def pat3 (s : List Char) : Bool := upperThenDigits s 1 3 1 2

/-- Regex `^[A-Z]{2,15}$` (Indian stock symbols, longer names). -/
def pat4 (s : List Char) : Bool :=
  s.all isUpperAZ && decide (2 ≤ s.length) && decide (s.length ≤ 15)

/-- Regex `^[A-Z]{1,10}[0-9]{1,2}$` (Indian stocks with numbers). -/
def pat5 (s : List Char) : Bool := upperThenDigits s 1 10 1 2

/-- `IntegratedStockMonitor._is_valid_stock_symbol`.  Note the first length
check is on the raw `text`, before `strip()`. -/
def is_valid_stock_symbol (text : List Char) : Bool :=
  if text.isEmpty || decide (text.length > 50) then false
  else
    let clean_text := pyStrip text
    if clean_text.isEmpty then false
    else if clean_text.contains ' ' then
      decide (3 ≤ clean_text.length) && decide (clean_text.length ≤ 50)
    else
      let symbol_text := clean_text.filter isAlnumAscii
      if symbol_text.isEmpty then false
      else pat1 symbol_text || pat2 symbol_text || pat3 symbol_text ||
           pat4 symbol_text || pat5 symbol_text


/-- Python substring test `needle in hay`. -/
def isSubstr (needle hay : List Char) : Bool :=
  hay.tails.any (fun t => needle.isPrefixOf t)

def isAsciiLetter (c : Char) : Bool := isUpperAZ c || ('a' ≤ c && c ≤ 'z')

/-- ASCII lowercasing, as applied by `urllib`'s `hostname` property. -/
def toLowerAscii (c : Char) : Char :=
  if isUpperAZ c then Char.ofNat (c.toNat + 32) else c

/-- A valid URL scheme before `':'`: a letter followed by letters, digits,
`'+'`, `'-'` or `'.'` (as in `urllib.parse`). -/
def isValidScheme : List Char → Bool
  | [] => false
  | c :: rest =>
    isAsciiLetter c &&
    rest.all (fun d => isAsciiLetter d || isDigit09 d || d = '+' || d = '-' || d = '.')

/-- Drop a leading `scheme:` when present (model of `urllib.parse`'s
scheme splitting). -/
def splitScheme (url : List Char) : List Char :=
  let pre := url.takeWhile (fun c => !(c = ':'))
  if decide (pre.length < url.length) && isValidScheme pre then
    url.drop (pre.length + 1)
  else url

/-- Model of `urlparse(url).hostname`: a hostname exists only when the text
after the scheme starts with `"//"`; the netloc then extends to the next
`'/'`, `'?'` or `'#'`; userinfo (up to the last `'@'`) and port (after
`':'`) are removed and the result lowercased; an empty hostname is `None`. -/
def hostname? (url : List Char) : Option (List Char) :=
  match splitScheme url with
  | '/' :: '/' :: r =>
    let netloc := r.takeWhile (fun c => !(c = '/') && !(c = '?') && !(c = '#'))
    let host :=
      ((netloc.reverse.takeWhile (fun c => !(c = '@'))).reverse.takeWhile
        (fun c => !(c = ':'))).map toLowerAscii
    if host.isEmpty then none else some host
  | _ => none


/-- A matched document node: its `get_text()` result and its own
sub-selection (`row.select(sel)`), returning the sub-nodes' texts. -/
structure Elem where
  text : List Char
  sub : String → List (List Char)

/-- A parsed document (`BeautifulSoup` result): `select` maps a CSS
selector to the list of matched nodes, in document order. -/
structure Doc where
  select : String → List Elem

/-- The `default_selectors` table of `IntegratedStockMonitor.__init__`,
in insertion order (Python dicts preserve it). -/
def default_selectors : List (List Char × List String) :=
  [("finviz.com".data, [".screener-link", ".screener-body-cell"]),
   ("yahoo.com".data, [".ticker", ".symbol"]),
   ("marketwatch.com".data, [".symbol", ".ticker"]),
   ("seekingalpha.com".data, [".symbol", ".ticker"]),
   ("stocktwits.com".data, [".symbol", ".ticker"]),
   ("scanx.trade".data,
    ["table tbody tr td:first-child", "tr td:first-child", "td:first-child",
     ".stock-name", "[data-stock-name]", "td"])]

/-- The fallback selector list for unknown websites. -/
def generic_selectors : List String :=
  [".stock-symbol", ".ticker", ".symbol", "[data-symbol]", ".stock", ".ticker-symbol"]

/-- Table lookup of `_get_default_selectors`: first key that is a substring
of the (lowercased) domain wins; otherwise the generic fallback. -/
def lookupSelectors (domain : List Char) : List String :=
  match default_selectors.find? (fun kv => isSubstr kv.1 domain) with
  | some kv => kv.2
  | none => generic_selectors

/-- `IntegratedStockMonitor._get_default_selectors`, which re-derives the
domain from the URL (`none` models the exception raised on a missing
hostname). -/
def get_default_selectors (url : List Char) : Option (List String) :=
  (hostname? url).map lookupSelectors

/-- The candidates one selector contributes in the selector loop of
`get_stocks_from_url`: each matched element's stripped text, kept when the
validator accepts it. -/
def acceptedCandidates (doc : Doc) (sel : String) : List (List Char) :=
  ((doc.select sel).map (fun e => pyStrip e.text)).filter is_valid_stock_symbol

/-- The selector loop of `get_stocks_from_url` (lines 107-125): selectors
are tried in order and the loop breaks at the first selector whose elements
yield at least one accepted candidate. -/
def selectorLoop (doc : Doc) : List String → List (List Char)
  | [] => []
  | sel :: rest =>
    let found := acceptedCandidates doc sel
    if found.isEmpty then selectorLoop doc rest else found

/-- The per-row part of `_extract_from_tables`: the first cell, then cells
at indices 1 and 2 (`range(1, min(len(cells), 3))`), each kept when valid. -/
def rowStocks (cells : List (List Char)) : List (List Char) :=
  match cells with
  | [] => []
  | c0 :: rest =>
    (if is_valid_stock_symbol (pyStrip c0) then [pyStrip c0] else []) ++
    ((rest.take 2).map pyStrip).filter is_valid_stock_symbol

/-- `IntegratedStockMonitor._extract_from_tables`. -/
def extract_from_tables (doc : Doc) : List (List Char) :=
  let stocks := (doc.select "tr").flatMap (fun r => rowStocks (r.sub "td, th"))
  if stocks.isEmpty then
    ((doc.select "[class*=\"stock\"], [class*=\"name\"], [data-stock]").map
      (fun e => pyStrip e.text)).filter is_valid_stock_symbol
  else stocks

/-- The shared acceptance rule of scanX Methods 1 and 2, applied to a
stripped element text `t`: require `t` truthy and of raw length `> 3`,
whitespace-collapse and re-strip it, and keep the result when it contains a
space and has length `≥ 5`. -/
def scanxNameOf (t : List Char) : List (List Char) :=
  if !t.isEmpty && decide (t.length > 3) then
    let clean_name := pyStrip (collapseWs t)
    if clean_name.contains ' ' && decide (5 ≤ clean_name.length) then [clean_name]
    else []
  else []

/-- scanX Method 1: table rows, first `td` cell of each. -/
def scanxMethodA (doc : Doc) : List (List Char) :=
  (doc.select "table tbody tr").flatMap (fun row =>
    match row.sub "td" with
    | [] => []
    | c0 :: _ => scanxNameOf (pyStrip c0))

/-- scanX Method 2: elements whose class/data attributes suggest stock
names. -/
def scanxMethodB (doc : Doc) : List (List Char) :=
  (doc.select "[class*=\"stock\"], [class*=\"name\"], [data-stock]").flatMap
    (fun e => scanxNameOf (pyStrip e.text))

/-- scanX Method 3: any `td`/`div`/`span` text of length strictly between
10 and 100 containing a space and one of `"NSE"`, `"BSE"`, `'&'`. -/
def scanxMethodC (doc : Doc) : List (List Char) :=
  (doc.select "td, div, span").flatMap (fun e =>
    let text := pyStrip e.text
    if !text.isEmpty && decide (10 < text.length) && decide (text.length < 100) then
      if text.contains ' ' &&
         (isSubstr "NSE".data text || isSubstr "BSE".data text || text.contains '&') then
        let clean_name := pyStrip (collapseWs text)
        if decide (5 ≤ clean_name.length) then [clean_name] else []
      else []
    else [])

/-- `IntegratedStockMonitor._extract_from_scanx`: the three methods run as
a cascade, each only when every earlier one found nothing. -/
def extract_from_scanx (doc : Doc) : List (List Char) :=
  let a := scanxMethodA doc
  if a.isEmpty then
    let b := scanxMethodB doc
    if b.isEmpty then scanxMethodC doc else b
  else a

/-- The body of `get_stocks_from_url` after a 200 response, on the parsed
document; `.error msg` models an exception whose `str(e)` is `msg` (here
only the `AttributeError` raised by `urlparse(url).hostname.lower()` when
the hostname is `None`, line 95). -/
def get_stocks_body (doc : Doc) (url : List Char) : Except (List Char) (List (List Char)) :=
  match hostname? url with
  | none => .error "NoneType object has no attribute lower".data
  | some domain =>
    let scanxStocks :=
      if isSubstr "scanx.trade".data domain then extract_from_scanx doc else []
    if !scanxStocks.isEmpty then .ok scanxStocks
    else
      let stocks := selectorLoop doc (lookupSelectors domain)
      let stocks := if stocks.isEmpty then extract_from_tables doc else stocks
      .ok stocks

/-- `IntegratedStockMonitor.get_stocks_from_url` on an already-fetched,
parsed document.  The Python returns `list(set(stocks))`, whose order is
unspecified, so the result is modelled as the underlying `Finset`.  The
source-level handler (lines 135-141) turns any exception into `[]` unless
`str(e)` contains `"CORS"` or `"ClientException"`, in which case it
re-fetches via `_get_stocks_with_fallback`; that re-fetch is outside the
single-document model and its result is passed in as `fallback`. -/
def get_stocks_from_url (doc : Doc) (fallback : List (List Char)) (url : List Char) :
    Finset (List Char) :=
  match get_stocks_body doc url with
  | .ok stocks => stocks.toFinset
  | .error e =>
    if isSubstr "CORS".data e || isSubstr "ClientException".data e then
      fallback.toFinset
    else ∅

/-- `IntegratedStockMonitor.get_new_stocks_for_url`.  `current_stocks` is
`set(self.get_stocks_from_url(url))`, passed explicitly since the fetch is
I/O; `store` is `self.url_stocks` (`dict.get(url, set())` makes it total
with default `∅`).  Returns the new stocks and the updated store. -/
def get_new_stocks_for_url (store : List Char → Finset (List Char)) (url : List Char)
    (current_stocks : Finset (List Char)) :
    Finset (List Char) × (List Char → Finset (List Char)) :=
  let last_stocks := store url
  let new_stocks := current_stocks \ last_stocks
  if current_stocks = ∅ then (new_stocks, store)
  else (new_stocks, fun u => if u = url then current_stocks else store u)

/-- Python `str(n)` for a natural number. -/
def natToStr (n : Nat) : List Char := Nat.toDigits 10 n

/-- `IntegratedStockMonitor.format_stock_message`.  The timestamp the
source takes from `datetime.now().strftime(...)` is passed in as the
pre-formatted string `now`; `urlparse(url).hostname` interpolates as the
text `"None"` when absent (an f-string renders `None` without raising, so
the `except` branch of the source is unreachable for this body). -/
def format_stock_message (url : List Char) (new_stocks : List (List Char))
    (now : List Char) : List Char :=
  let domain := match hostname? url with
    | some h => h
    | none => "None".data
  let message :=
    if new_stocks.length = 1 then
      "\n🚨 <b>New Stock Alert!</b>\n\n📈 <b>Stock:</b> ".data ++
        new_stocks.headD [] ++
        "\n🌐 <b>Source:</b> ".data ++ domain ++
        "\n⏰ <b>Detected:</b> ".data ++ now ++
        "\n\n<a href=\"".data ++ url ++ "\">🔗 View Screener</a>\n".data
    else
      let stocks_list :=
        List.intercalate "\n".data ((new_stocks.take 10).map (fun s => "• ".data ++ s))
      let more_text :=
        if decide (new_stocks.length > 10) then
          "\n... and ".data ++ natToStr (new_stocks.length - 10) ++ " more".data
        else []
      "\n🚨 <b>".data ++ natToStr new_stocks.length ++
        " New Stocks Alert!</b>\n\n📈 <b>New Stocks:</b>\n".data ++
        stocks_list ++ more_text ++
        "\n\n🌐 <b>Source:</b> ".data ++ domain ++
        "\n⏰ <b>Detected:</b> ".data ++ now ++
        "\n\n<a href=\"".data ++ url ++ "\">🔗 View Screener</a>\n".data
  pyStrip message

/-- A scanX.trade document whose first table row holds a 57-character
company name in its first cell. -/
def docScanxW : Doc :=
  ⟨fun s =>
    if s = "table tbody tr" then
      [⟨[], fun s2 =>
        if s2 = "td" then
          ["Bajaj Holdings and Investment Limited Extra Long Name NSE".data]
        else []⟩]
    else []⟩

/-- A non-scanX document: the first generic selector matches one invalid
text, the second matches two valid symbols and one invalid text, and the
third (never reached) matches another valid symbol. -/
def docC5W : Doc :=
  ⟨fun s =>
    if s = ".stock-symbol" then [⟨"12".data, fun _ => []⟩]
    else if s = ".ticker" then
      [⟨" AAPL ".data, fun _ => []⟩, ⟨"??".data, fun _ => []⟩, ⟨"TSLA".data, fun _ => []⟩]
    else if s = ".symbol" then [⟨"MSFT".data, fun _ => []⟩]
    else []⟩

/-- A non-scanX document whose first generic selector matches one element
whose trimmed text `"AB  CD"` contains an internal double space. -/
def docGenericW : Doc :=
  ⟨fun s => if s = ".stock-symbol" then [⟨"AB  CD".data, fun _ => []⟩] else []⟩

/-- Every whitespace character of the list is a plain `' '`. -/
def spacesSingle (l : List Char) : Prop :=
  ∀ c ∈ l, isPySpace c = true → c = ' '

/-- No two adjacent characters of the list are both whitespace. -/
abbrev noAdjacentWS (l : List Char) : Prop :=
  l.Chain' (fun a b => isPySpace a = false ∨ isPySpace b = false)

/-! ## Claim theorems -/

/-- C1: for every source and every current extracted set, if the current
set is empty then `get_new_stocks_for_url` returns the empty set and
leaves the stored snapshot for that source unchanged — an empty or failed
extraction never replaces or clears a previously stored snapshot. -/
theorem diff_empty_preserves_store (store : List Char → Finset (List Char))
    (url : List Char) (current : Finset (List Char)) (h : current = ∅) :
    (get_new_stocks_for_url store url current).1 = ∅ ∧
    (get_new_stocks_for_url store url current).2 = store := by
  subst h
  refine ⟨?_, ?_⟩ <;> simp [get_new_stocks_for_url]

theorem diff_empty_preserves_store_witness :
    (∅ : Finset (List Char)) = ∅ ∧
    ((get_new_stocks_for_url
        (fun u => if u = "https://a.com/s".data then {"AAPL".data, "MSFT".data} else ∅)
        "https://a.com/s".data ∅).1 = ∅ ∧
     (get_new_stocks_for_url
        (fun u => if u = "https://a.com/s".data then {"AAPL".data, "MSFT".data} else ∅)
        "https://a.com/s".data ∅).2 =
       (fun u => if u = "https://a.com/s".data then {"AAPL".data, "MSFT".data} else ∅)) :=
  ⟨rfl, diff_empty_preserves_store _ _ _ rfl⟩

/-- C2: for every source, previous snapshot and non-empty current set, the
diff returns exactly `current − previous` (an identifier in both sets is
not reported; one only in `current` is), and the stored snapshot for the
source is replaced wholesale with `current` (other sources untouched),
regardless of whether the difference is empty. -/
theorem diff_nonempty_correct (store : List Char → Finset (List Char))
    (url : List Char) (current : Finset (List Char)) (h : current ≠ ∅) :
    (get_new_stocks_for_url store url current).1 = current \ store url ∧
    (∀ x, x ∈ (get_new_stocks_for_url store url current).1 ↔
        x ∈ current ∧ x ∉ store url) ∧
    (get_new_stocks_for_url store url current).2 url = current ∧
    (∀ u, u ≠ url → (get_new_stocks_for_url store url current).2 u = store u) := by
  refine ⟨?_, ?_, ?_, ?_⟩
  · simp [get_new_stocks_for_url, h]
  · intro x
    simp [get_new_stocks_for_url, h, Finset.mem_sdiff]
  · simp [get_new_stocks_for_url, h]
  · intro u hu
    simp [get_new_stocks_for_url, h, hu]

theorem diff_nonempty_correct_witness :
    ({"AAPL".data, "TSLA".data} : Finset (List Char)) ≠ ∅ ∧
    ((get_new_stocks_for_url
        (fun u => if u = "https://a.com/s".data then {"AAPL".data} else ∅)
        "https://a.com/s".data {"AAPL".data, "TSLA".data}).1 =
        {"AAPL".data, "TSLA".data} \
          (fun u => if u = "https://a.com/s".data then {"AAPL".data} else ∅)
            "https://a.com/s".data ∧
     (∀ x, x ∈ (get_new_stocks_for_url
        (fun u => if u = "https://a.com/s".data then {"AAPL".data} else ∅)
        "https://a.com/s".data {"AAPL".data, "TSLA".data}).1 ↔
        x ∈ ({"AAPL".data, "TSLA".data} : Finset (List Char)) ∧
        x ∉ (fun u => if u = "https://a.com/s".data then ({"AAPL".data} : Finset (List Char)) else ∅)
            "https://a.com/s".data) ∧
     (get_new_stocks_for_url
        (fun u => if u = "https://a.com/s".data then {"AAPL".data} else ∅)
        "https://a.com/s".data {"AAPL".data, "TSLA".data}).2 "https://a.com/s".data =
        {"AAPL".data, "TSLA".data} ∧
     (∀ u, u ≠ "https://a.com/s".data →
       (get_new_stocks_for_url
          (fun u => if u = "https://a.com/s".data then {"AAPL".data} else ∅)
          "https://a.com/s".data {"AAPL".data, "TSLA".data}).2 u =
         (fun u => if u = "https://a.com/s".data then ({"AAPL".data} : Finset (List Char)) else ∅) u)) :=
  ⟨by decide, diff_nonempty_correct _ _ _ (by decide)⟩

/-- C3 counterexample: the claim says the over-long rejection is judged on
the trimmed length, but the source checks `len(text) > 50` on the raw
text.  `"A B"` followed by 48 spaces has raw length 51 and trimmed form
`"A B"` (internal space, trimmed length 3 ∈ [3,50]), so the claim demands
acceptance, yet `_is_valid_stock_symbol` rejects it. -/
theorem validator_trimmed_length_cex :
    (pyStrip ("A B".data ++ List.replicate 48 ' ')).contains ' ' = true ∧
    3 ≤ (pyStrip ("A B".data ++ List.replicate 48 ' ')).length ∧
    (pyStrip ("A B".data ++ List.replicate 48 ' ')).length ≤ 50 ∧
    is_valid_stock_symbol ("A B".data ++ List.replicate 48 ' ') = false := by
  decide

/-- C3 amended: for every input whose trimmed form contains an internal
space, the validator returns true iff the raw (untrimmed) length is at
most 50 and the trimmed length is between 3 and 50 inclusive — the initial
rejection of over-long input is judged on the length before trimming. -/
theorem validator_name_branch_raw_length (text : List Char)
    (h : (pyStrip text).contains ' ' = true) :
    is_valid_stock_symbol text = true ↔
      (text.length ≤ 50 ∧ 3 ≤ (pyStrip text).length ∧ (pyStrip text).length ≤ 50) := by
  have hps : (pyStrip text).isEmpty = false := by
    cases he : pyStrip text with
    | nil => rw [he] at h; cases h
    | cons c t => rfl
  have hte : text.isEmpty = false := by
    cases he : text with
    | nil => rw [he] at h; cases h
    | cons c t => rfl
  rcases Nat.lt_or_ge 50 text.length with hgt | hle
  · have hc : (text.isEmpty || decide (text.length > 50)) = true := by
      simp
      omega
    have hv : is_valid_stock_symbol text = false := by
      unfold is_valid_stock_symbol
      rw [if_pos hc]
    rw [hv]
    constructor
    · intro hx
      simp at hx
    · rintro ⟨h1, -, -⟩
      omega
  · have hv : is_valid_stock_symbol text =
        (decide (3 ≤ (pyStrip text).length) && decide ((pyStrip text).length ≤ 50)) := by
      unfold is_valid_stock_symbol
      rw [if_neg, if_neg, if_pos h]
      · simp [hps]
      · simp [hte]
        omega
    rw [hv]
    simp only [Bool.and_eq_true, decide_eq_true_eq]
    constructor
    · intro ⟨h1, h2⟩
      exact ⟨hle, h1, h2⟩
    · intro ⟨_, h1, h2⟩
      exact ⟨h1, h2⟩

theorem validator_name_branch_raw_length_witness :
    (pyStrip "Bajaj Holdings & Investments".data).contains ' ' = true ∧
    (is_valid_stock_symbol "Bajaj Holdings & Investments".data = true ↔
      ("Bajaj Holdings & Investments".data.length ≤ 50 ∧
       3 ≤ (pyStrip "Bajaj Holdings & Investments".data).length ∧
       (pyStrip "Bajaj Holdings & Investments".data).length ≤ 50)) :=
  ⟨by decide, validator_name_branch_raw_length _ (by decide)⟩

/-- C8: the validator is total and pure — for every input it returns a
boolean (no exception is modelled because none can be raised: every
operation used is total), and in particular it returns `false` for the
empty string and `false` for a 51-character string. -/
theorem validator_total_pure :
    (∀ text : List Char,
      is_valid_stock_symbol text = false ∨ is_valid_stock_symbol text = true) ∧
    is_valid_stock_symbol [] = false ∧
    is_valid_stock_symbol (List.replicate 51 'A') = false :=
  ⟨fun text => Or.symm (Bool.eq_false_or_eq_true (is_valid_stock_symbol text)),
   by decide, by decide⟩

/-- C7 counterexample: the claim says two invocations of
`format_stock_message` with the same source and the same new-identifier
set produce the identical message, but the message embeds
`datetime.now()`: two invocations at different clock readings differ. -/
theorem format_time_dependent_cex :
    format_stock_message "https://scanx.trade/s".data ["AAPL".data]
        "2026-10-12 08:00:00".data ≠
      format_stock_message "https://scanx.trade/s".data ["AAPL".data]
        "2026-10-12 08:00:01".data := by
  decide

/-- C7 amended: message formatting is deterministic given the same source,
the same new-identifier list and the same clock reading — the message is a
pure function of exactly these three inputs. -/
theorem format_deterministic_given_time (url₁ url₂ : List Char)
    (stocks₁ stocks₂ : List (List Char)) (now₁ now₂ : List Char)
    (hu : url₁ = url₂) (hs : stocks₁ = stocks₂) (hn : now₁ = now₂) :
    format_stock_message url₁ stocks₁ now₁ = format_stock_message url₂ stocks₂ now₂ := by
  rw [hu, hs, hn]

theorem format_deterministic_given_time_witness :
    format_stock_message "https://scanx.trade/s".data ["AAPL".data, "TSLA".data]
        "2026-10-12 08:00:00".data =
      format_stock_message "https://scanx.trade/s".data ["AAPL".data, "TSLA".data]
        "2026-10-12 08:00:00".data :=
  format_deterministic_given_time _ _ _ _ _ _ rfl rfl rfl

/-- C4: for every input string of length at most 50 whose trimmed form is
non-empty and contains no internal space, the validator strips every
character that is not an ASCII letter or digit, rejects if nothing
remains, and otherwise accepts iff the stripped string matches at least
one of the five symbol patterns. -/
theorem validator_symbol_branch_patterns (text : List Char)
    (hlen : text.length ≤ 50) (hne : (pyStrip text).isEmpty = false)
    (hsp : (pyStrip text).contains ' ' = false) :
    is_valid_stock_symbol text = true ↔
      ((pyStrip text).filter isAlnumAscii ≠ [] ∧
       (pat1 ((pyStrip text).filter isAlnumAscii) ||
        pat2 ((pyStrip text).filter isAlnumAscii) ||
        pat3 ((pyStrip text).filter isAlnumAscii) ||
        pat4 ((pyStrip text).filter isAlnumAscii) ||
        pat5 ((pyStrip text).filter isAlnumAscii)) = true) := by
  have hte : text.isEmpty = false := by
    cases he : text with
    | nil => subst he; exact absurd hne (by decide)
    | cons c t => rfl
  have h50 : decide (text.length > 50) = false := by
    simp
    omega
  have hsp' : ' ' ∉ pyStrip text := by simpa using hsp
  by_cases hsym : ((pyStrip text).filter isAlnumAscii).isEmpty
  · have he : (pyStrip text).filter isAlnumAscii = [] := by
      simpa [List.isEmpty_iff] using hsym
    simp [is_valid_stock_symbol, hte, h50, hne, hsp, hsp', hsym, he]
  · have he : (pyStrip text).filter isAlnumAscii ≠ [] := by
      simpa [List.isEmpty_iff] using hsym
    simp [is_valid_stock_symbol, hte, h50, hne, hsp, hsp', hsym, he]

theorem validator_symbol_branch_patterns_witness :
    ("AAPL".data.length ≤ 50 ∧ (pyStrip "AAPL".data).isEmpty = false ∧
     (pyStrip "AAPL".data).contains ' ' = false) ∧
    (is_valid_stock_symbol "AAPL".data = true ↔
      ((pyStrip "AAPL".data).filter isAlnumAscii ≠ [] ∧
       (pat1 ((pyStrip "AAPL".data).filter isAlnumAscii) ||
        pat2 ((pyStrip "AAPL".data).filter isAlnumAscii) ||
        pat3 ((pyStrip "AAPL".data).filter isAlnumAscii) ||
        pat4 ((pyStrip "AAPL".data).filter isAlnumAscii) ||
        pat5 ((pyStrip "AAPL".data).filter isAlnumAscii)) = true)) :=
  ⟨⟨by decide, by decide, by decide⟩,
   validator_symbol_branch_patterns _ (by decide) (by decide) (by decide)⟩

/-- C10: for every source URL whose parse yields no hostname, extraction
returns the empty set rather than raising — the error from lowercasing
the absent hostname is swallowed by the source-level handler (its message
contains neither `"CORS"` nor `"ClientException"`, so no fallback fetch
happens either), and the empty result never mutates the snapshot. -/
theorem missing_hostname_empty_result (doc : Doc) (fallback : List (List Char))
    (url : List Char) (store : List Char → Finset (List Char))
    (h : hostname? url = none) :
    get_stocks_from_url doc fallback url = ∅ ∧
    (get_new_stocks_for_url store url (get_stocks_from_url doc fallback url)).1 = ∅ ∧
    (get_new_stocks_for_url store url (get_stocks_from_url doc fallback url)).2 = store := by
  have hres : get_stocks_from_url doc fallback url = ∅ := by
    unfold get_stocks_from_url get_stocks_body
    rw [h]
    have hcors : (isSubstr "CORS".data "NoneType object has no attribute lower".data ||
        isSubstr "ClientException".data "NoneType object has no attribute lower".data) = false := by
      decide
    simp only [hcors, Bool.false_eq_true, if_false]
  refine ⟨hres, ?_, ?_⟩ <;> rw [hres] <;> simp [get_new_stocks_for_url]

theorem missing_hostname_empty_result_witness :
    hostname? "scanx.trade/stock-screener/abc".data = none ∧
    (get_stocks_from_url ⟨fun _ => []⟩ [] "scanx.trade/stock-screener/abc".data = ∅ ∧
     (get_new_stocks_for_url (fun _ => ∅) "scanx.trade/stock-screener/abc".data
        (get_stocks_from_url ⟨fun _ => []⟩ [] "scanx.trade/stock-screener/abc".data)).1 = ∅ ∧
     (get_new_stocks_for_url (fun _ => ∅) "scanx.trade/stock-screener/abc".data
        (get_stocks_from_url ⟨fun _ => []⟩ [] "scanx.trade/stock-screener/abc".data)).2 =
       (fun _ => ∅)) :=
  ⟨by decide, missing_hostname_empty_result ⟨fun _ => []⟩ [] _ (fun _ => ∅) (by decide)⟩

/-- C9: the site-special scanX stage bypasses the validator — for this
parsed document on a scanx.trade source, extraction returns an identifier
(57 characters, over the validator's 50-character limit) for which
`_is_valid_stock_symbol` returns false; Methods 1-3 accept by their own
length/space/substring rules and never call the validator. -/
theorem scanx_bypasses_validator :
    "Bajaj Holdings and Investment Limited Extra Long Name NSE".data ∈
      get_stocks_from_url docScanxW [] "https://scanx.trade/screener-1".data ∧
    is_valid_stock_symbol
      "Bajaj Holdings and Investment Limited Extra Long Name NSE".data = false := by
  exact ⟨by decide, by decide⟩

/-- The selector loop returns exactly the accepted candidates of the first
selector that yields at least one, independent of the selectors after it. -/
theorem selectorLoop_first_nonempty (doc : Doc) (pre rest : List String) (sel : String)
    (hpre : ∀ s ∈ pre, acceptedCandidates doc s = [])
    (hsel : acceptedCandidates doc sel ≠ []) :
    selectorLoop doc (pre ++ sel :: rest) = acceptedCandidates doc sel := by
  induction pre with
  | nil =>
    rw [List.nil_append]
    unfold selectorLoop
    rw [if_neg]
    simp [List.isEmpty_iff, hsel]
  | cons s pre ih =>
    have h0 : acceptedCandidates doc s = [] := hpre s (List.mem_cons_self s pre)
    rw [List.cons_append]
    unfold selectorLoop
    rw [h0]
    simp only [List.isEmpty_nil, if_true]
    exact ih (fun t ht => hpre t (List.mem_cons_of_mem s ht))

/-- C5: the profile-stage extraction cascade short-circuits — on a
non-scanX source, if every strategy before `sel` in the resolved profile
yields no accepted candidate and `sel` yields at least one, the whole
extraction returns exactly the deduplicated accepted candidates of `sel`,
and no later strategy contributes. -/
theorem profile_stage_short_circuit (doc : Doc) (fallback : List (List Char))
    (url domain : List Char) (pre rest : List String) (sel : String)
    (hh : hostname? url = some domain)
    (hsc : isSubstr "scanx.trade".data domain = false)
    (hres : lookupSelectors domain = pre ++ sel :: rest)
    (hpre : ∀ s ∈ pre, acceptedCandidates doc s = [])
    (hsel : acceptedCandidates doc sel ≠ []) :
    get_stocks_from_url doc fallback url = (acceptedCandidates doc sel).toFinset := by
  have hloop : selectorLoop doc (lookupSelectors domain) = acceptedCandidates doc sel := by
    rw [hres]
    exact selectorLoop_first_nonempty doc pre rest sel hpre hsel
  unfold get_stocks_from_url get_stocks_body
  rw [hh]
  simp only [hsc, Bool.false_eq_true, if_false, hloop]
  rw [if_neg]
  · rw [if_neg]
    simp [List.isEmpty_iff, hsel]
  · simp [List.isEmpty_iff, hsel]

theorem profile_stage_short_circuit_witness :
    (hostname? "https://example.com/x".data = some "example.com".data ∧
     isSubstr "scanx.trade".data "example.com".data = false ∧
     lookupSelectors "example.com".data =
       [".stock-symbol"] ++ ".ticker" ::
         [".symbol", "[data-symbol]", ".stock", ".ticker-symbol"] ∧
     (∀ s ∈ [".stock-symbol"], acceptedCandidates docC5W s = []) ∧
     acceptedCandidates docC5W ".ticker" ≠ []) ∧
    get_stocks_from_url docC5W [] "https://example.com/x".data =
      (acceptedCandidates docC5W ".ticker").toFinset :=
  ⟨⟨by decide, by decide, by decide, by decide, by decide⟩,
   profile_stage_short_circuit docC5W [] "https://example.com/x".data
     "example.com".data [".stock-symbol"]
     [".symbol", "[data-symbol]", ".stock", ".ticker-symbol"] ".ticker"
     (by decide) (by decide) (by decide) (by decide) (by decide)⟩

/-! ### Whitespace-normalization lemmas -/

lemma head?_dropWhile_pySpace : ∀ {l : List Char} {c : Char},
    (l.dropWhile isPySpace).head? = some c → isPySpace c = false := by
  intro l
  induction l with
  | nil => intro c h; cases h
  | cons d t ih =>
    intro c h
    rw [List.dropWhile_cons] at h
    cases hd : isPySpace d with
    | true => rw [hd] at h; simp at h; exact ih h
    | false => rw [hd] at h; simp at h; subst h; exact hd

lemma dropWhile_eq_self_of_head? {l : List Char}
    (h : ∀ c, l.head? = some c → isPySpace c = false) :
    l.dropWhile isPySpace = l := by
  cases l with
  | nil => rfl
  | cons c t =>
    have hc := h c rfl
    simp [List.dropWhile_cons, hc]

lemma head?_pyStrip (s : List Char) {c : Char}
    (h : (pyStrip s).head? = some c) : isPySpace c = false := by
  have hsuf : (s.dropWhile isPySpace).reverse.dropWhile isPySpace <:+
      (s.dropWhile isPySpace).reverse := List.dropWhile_suffix _
  obtain ⟨u, hu⟩ := hsuf
  have ha : s.dropWhile isPySpace = pyStrip s ++ u.reverse := by
    have h2 := congrArg List.reverse hu
    rw [List.reverse_append, List.reverse_reverse] at h2
    exact h2.symm
  apply head?_dropWhile_pySpace (l := s)
  rw [ha]
  cases hp : pyStrip s with
  | nil => rw [hp] at h; cases h
  | cons x xs =>
    rw [hp] at h
    simp at h
    simp [h]

lemma head?_reverse_pyStrip (s : List Char) {c : Char}
    (h : (pyStrip s).reverse.head? = some c) : isPySpace c = false := by
  have he : (pyStrip s).reverse = (s.dropWhile isPySpace).reverse.dropWhile isPySpace :=
    List.reverse_reverse _
  rw [he] at h
  exact head?_dropWhile_pySpace h

lemma pyStrip_idem (s : List Char) : pyStrip (pyStrip s) = pyStrip s := by
  have h1 : (pyStrip s).dropWhile isPySpace = pyStrip s :=
    dropWhile_eq_self_of_head? (fun c hc => head?_pyStrip s hc)
  have h2 : (pyStrip s).reverse.dropWhile isPySpace = (pyStrip s).reverse :=
    dropWhile_eq_self_of_head? (fun c hc => head?_reverse_pyStrip s hc)
  show (((pyStrip s).dropWhile isPySpace).reverse.dropWhile isPySpace).reverse = pyStrip s
  rw [h1, h2, List.reverse_reverse]

lemma head?_collapseAux_true : ∀ {l : List Char} {c : Char},
    (collapseAux l true).head? = some c → isPySpace c = false := by
  intro l
  induction l with
  | nil => intro c h; cases h
  | cons d t ih =>
    intro c h
    unfold collapseAux at h
    cases hd : isPySpace d with
    | true => rw [hd] at h; simp at h; exact ih h
    | false => rw [hd] at h; simp at h; subst h; exact hd

lemma spacesSingle_collapseAux : ∀ (l : List Char) (b : Bool),
    spacesSingle (collapseAux l b) := by
  intro l
  induction l with
  | nil => intro b c hc; cases hc
  | cons d t ih =>
    intro b c hc hsp
    unfold collapseAux at hc
    cases hd : isPySpace d with
    | true =>
      rw [hd] at hc
      cases b with
      | true => simp at hc; exact ih true c hc hsp
      | false =>
        simp at hc
        rcases hc with hc | hc
        · exact hc
        · exact ih true c hc hsp
    | false =>
      rw [hd] at hc
      simp at hc
      rcases hc with hc | hc
      · subst hc; simp [hd] at hsp
      · exact ih false c hc hsp

lemma noAdjacentWS_collapseAux : ∀ (l : List Char) (b : Bool),
    noAdjacentWS (collapseAux l b) := by
  intro l
  induction l with
  | nil => intro b; exact List.chain'_nil
  | cons d t ih =>
    intro b
    unfold collapseAux
    cases hd : isPySpace d with
    | true =>
      cases b with
      | true =>
        simp only [hd, if_true]
        exact ih true
      | false =>
        simp only [hd, if_true, Bool.false_eq_true, if_false]
        exact List.chain'_cons'.mpr
          ⟨fun y hy => Or.inr (head?_collapseAux_true (Option.mem_def.mp hy)),
           ih true⟩
    | false =>
      simp only [hd, Bool.false_eq_true, if_false]
      exact List.chain'_cons'.mpr ⟨fun y _ => Or.inl hd, ih false⟩

lemma collapseAux_true_eq_false_of_head {l : List Char}
    (h : ∀ c, l.head? = some c → isPySpace c = false) :
    collapseAux l true = collapseAux l false := by
  cases l with
  | nil => rfl
  | cons c t =>
    have hc := h c rfl
    unfold collapseAux
    rw [hc]
    simp

lemma collapseAux_fixed : ∀ {l : List Char}, spacesSingle l → noAdjacentWS l →
    collapseAux l false = l := by
  intro l
  induction l with
  | nil => intro _ _; rfl
  | cons c t ih =>
    intro h1 h2
    have ht1 : spacesSingle t := fun d hd hsp => h1 d (List.mem_cons_of_mem c hd) hsp
    have ht2 : noAdjacentWS t := List.Chain'.tail h2
    unfold collapseAux
    cases hc : isPySpace c with
    | false =>
      simp only [hc, Bool.false_eq_true, if_false]
      rw [ih ht1 ht2]
    | true =>
      have hcs : c = ' ' := h1 c (List.mem_cons_self c t) hc
      have hhead : ∀ d, t.head? = some d → isPySpace d = false := by
        intro d hd
        rcases (List.chain'_cons'.mp h2).1 d (Option.mem_def.mpr hd) with h | h
        · rw [hc] at h; cases h
        · exact h
      simp only [hc, if_true, Bool.false_eq_true, if_false]
      rw [collapseAux_true_eq_false_of_head hhead, ih ht1 ht2, hcs]

lemma mem_of_mem_pyStrip {l : List Char} {x : Char} (h : x ∈ pyStrip l) : x ∈ l := by
  unfold pyStrip at h
  rw [List.mem_reverse] at h
  have h1 := (List.dropWhile_suffix _).sublist.subset h
  rw [List.mem_reverse] at h1
  exact (List.dropWhile_suffix _).sublist.subset h1

lemma spacesSingle_pyStrip {l : List Char} (h : spacesSingle l) :
    spacesSingle (pyStrip l) :=
  fun c hc hsp => h c (mem_of_mem_pyStrip hc) hsp

lemma noAdjacentWS_reverse {l : List Char} (h : noAdjacentWS l) :
    noAdjacentWS l.reverse := by
  show List.Chain' (fun a b => isPySpace a = false ∨ isPySpace b = false) l.reverse
  rw [List.chain'_reverse]
  exact List.Chain'.imp (fun a b hab => hab.symm) h

lemma noAdjacentWS_pyStrip {l : List Char} (h : noAdjacentWS l) :
    noAdjacentWS (pyStrip l) := by
  have h1 : noAdjacentWS (l.dropWhile isPySpace) :=
    List.Chain'.suffix h (List.dropWhile_suffix _)
  have h2 := noAdjacentWS_reverse h1
  have h3 : noAdjacentWS ((l.dropWhile isPySpace).reverse.dropWhile isPySpace) :=
    List.Chain'.suffix h2 (List.dropWhile_suffix _)
  exact noAdjacentWS_reverse h3

/-- The cleaned names of the scanX stage are fixed points of whitespace
collapsing. -/
lemma collapseWs_normalized (y : List Char) :
    collapseWs (pyStrip (collapseWs y)) = pyStrip (collapseWs y) :=
  collapseAux_fixed (spacesSingle_pyStrip (spacesSingle_collapseAux y false))
    (noAdjacentWS_pyStrip (noAdjacentWS_collapseAux y false))

/-! ### Shape of the identifiers each extraction stage emits -/

lemma trimmed_of_mem_acceptedCandidates {doc : Doc} {sel : String} {x : List Char}
    (h : x ∈ acceptedCandidates doc sel) : pyStrip x = x := by
  unfold acceptedCandidates at h
  obtain ⟨hx, -⟩ := List.mem_filter.mp h
  obtain ⟨e, -, he⟩ := List.mem_map.mp hx
  rw [← he]
  exact pyStrip_idem _

lemma trimmed_of_mem_selectorLoop {doc : Doc} {sels : List String} {x : List Char}
    (h : x ∈ selectorLoop doc sels) : pyStrip x = x := by
  induction sels with
  | nil => cases h
  | cons sel rest ih =>
    simp only [selectorLoop] at h
    by_cases hf : (acceptedCandidates doc sel).isEmpty = true
    · rw [if_pos hf] at h
      exact ih h
    · rw [if_neg hf] at h
      exact trimmed_of_mem_acceptedCandidates h

lemma trimmed_of_mem_rowStocks {cells : List (List Char)} {x : List Char}
    (h : x ∈ rowStocks cells) : pyStrip x = x := by
  cases cells with
  | nil => simp [rowStocks] at h
  | cons c0 rest =>
    simp only [rowStocks] at h
    rw [List.mem_append] at h
    rcases h with h | h
    · split at h
      · have hx := List.mem_singleton.mp h
        subst hx
        exact pyStrip_idem _
      · cases h
    · obtain ⟨hx, -⟩ := List.mem_filter.mp h
      obtain ⟨y, -, hy⟩ := List.mem_map.mp hx
      rw [← hy]
      exact pyStrip_idem _

lemma trimmed_of_mem_tables {doc : Doc} {x : List Char}
    (h : x ∈ extract_from_tables doc) : pyStrip x = x := by
  simp only [extract_from_tables] at h
  split at h
  · obtain ⟨hx, -⟩ := List.mem_filter.mp h
    obtain ⟨e, -, he⟩ := List.mem_map.mp hx
    rw [← he]
    exact pyStrip_idem _
  · obtain ⟨r, -, hr⟩ := List.mem_flatMap.mp h
    exact trimmed_of_mem_rowStocks hr

lemma mem_scanxNameOf {t x : List Char} (h : x ∈ scanxNameOf t) :
    x = pyStrip (collapseWs t) := by
  simp only [scanxNameOf] at h
  split at h
  · split at h
    · exact List.mem_singleton.mp h
    · cases h
  · cases h

lemma norm_of_mem_methodA {doc : Doc} {x : List Char} (h : x ∈ scanxMethodA doc) :
    ∃ y, x = pyStrip (collapseWs y) := by
  simp only [scanxMethodA] at h
  obtain ⟨row, -, hr⟩ := List.mem_flatMap.mp h
  split at hr
  · cases hr
  · exact ⟨_, mem_scanxNameOf hr⟩

lemma norm_of_mem_methodB {doc : Doc} {x : List Char} (h : x ∈ scanxMethodB doc) :
    ∃ y, x = pyStrip (collapseWs y) := by
  simp only [scanxMethodB] at h
  obtain ⟨e, -, he⟩ := List.mem_flatMap.mp h
  exact ⟨_, mem_scanxNameOf he⟩

lemma norm_of_mem_methodC {doc : Doc} {x : List Char} (h : x ∈ scanxMethodC doc) :
    ∃ y, x = pyStrip (collapseWs y) := by
  simp only [scanxMethodC] at h
  obtain ⟨e, -, he⟩ := List.mem_flatMap.mp h
  split at he
  · split at he
    · split at he
      · exact ⟨_, List.mem_singleton.mp he⟩
      · cases he
    · cases he
  · cases he

lemma norm_of_mem_scanx {doc : Doc} {x : List Char} (h : x ∈ extract_from_scanx doc) :
    ∃ y, x = pyStrip (collapseWs y) := by
  simp only [extract_from_scanx] at h
  split at h
  · split at h
    · exact norm_of_mem_methodC h
    · exact norm_of_mem_methodB h
  · exact norm_of_mem_methodA h

lemma trimmed_of_body {doc : Doc} {url : List Char} {stocks : List (List Char)}
    (hb : get_stocks_body doc url = Except.ok stocks)
    {x : List Char} (hx : x ∈ stocks) : pyStrip x = x := by
  simp only [get_stocks_body] at hb
  split at hb
  · exact Except.noConfusion hb
  · split at hb
    · split at hb
      · injection hb with hb
        subst hb
        obtain ⟨y, hy⟩ := norm_of_mem_scanx hx
        subst hy
        exact pyStrip_idem _
      · injection hb with hb
        subst hb
        split at hx
        · exact trimmed_of_mem_tables hx
        · exact trimmed_of_mem_selectorLoop hx
    · split at hb
      · next h1 => simp at h1
      · injection hb with hb
        subst hb
        split at hx
        · exact trimmed_of_mem_tables hx
        · exact trimmed_of_mem_selectorLoop hx

/-- C6 counterexample: the claim says every returned identifier has its
internal whitespace runs collapsed to single spaces in every stage, but
the profile stage only strips: on a generic source whose first selector
matches text `"AB  CD"`, the extraction returns `"AB  CD"` itself, whose
internal double space is not collapsed. -/
theorem extraction_not_collapsed_cex :
    "AB  CD".data ∈ get_stocks_from_url docGenericW [] "https://example.com/x".data ∧
    collapseWs "AB  CD".data ≠ "AB  CD".data :=
  ⟨by decide, by decide⟩

/-- C6 amended: every identifier returned by extraction is trimmed of
leading and trailing whitespace, but internal whitespace runs are
collapsed only by the site-special scanX stage, whose identifiers are
additionally fixed points of whitespace collapsing; profile- and
table-stage identifiers may retain internal runs. -/
theorem extraction_identifiers_trimmed :
    (∀ (doc : Doc) (fallback : List (List Char)) (url x : List Char),
        x ∈ get_stocks_from_url doc fallback url → pyStrip x = x) ∧
    (∀ (doc : Doc) (x : List Char), x ∈ extract_from_scanx doc →
        pyStrip x = x ∧ collapseWs x = x) := by
  constructor
  · intro doc fallback url x h
    unfold get_stocks_from_url at h
    cases hb : get_stocks_body doc url with
    | ok stocks =>
      rw [hb] at h
      rw [List.mem_toFinset] at h
      exact trimmed_of_body hb h
    | error e =>
      rw [hb] at h
      have he : e = "NoneType object has no attribute lower".data := by
        simp only [get_stocks_body] at hb
        split at hb
        · injection hb with hb
          exact hb.symm
        · split at hb <;> split at hb <;> exact Except.noConfusion hb
      subst he
      have hcond : (isSubstr "CORS".data "NoneType object has no attribute lower".data ||
          isSubstr "ClientException".data "NoneType object has no attribute lower".data) =
            false := by decide
      simp [hcond] at h
  · intro doc x h
    obtain ⟨y, hy⟩ := norm_of_mem_scanx h
    subst hy
    exact ⟨pyStrip_idem _, collapseWs_normalized y⟩

theorem extraction_identifiers_trimmed_witness :
    ("AB  CD".data ∈ get_stocks_from_url docGenericW [] "https://example.com/x".data) ∧
    pyStrip "AB  CD".data = "AB  CD".data :=
  ⟨by decide,
   extraction_identifiers_trimmed.1 docGenericW [] "https://example.com/x".data
     "AB  CD".data (by decide)⟩

end StockMonitor
